import Mathlib

/-!
# Verification of the multi-modal RAG ingestion and retrieval core

Shallow embedding of the repository's ingestion identity/idempotency scheme
and the cross-collection retrieval-and-fusion algorithm:

* `src/clients/chroma_client.py` — indexers (`index_text_docs`,
  `index_table_artifacts`, `index_image_artifacts`, `index_all_modalities`)
  and helpers (`_clean_meta`, `_bbox_sig`, `_bbox_fields`, `_file_sha256`,
  `_sha1_file`);
* `src/utils/helpers.py` — `file_sha256`, `is_already_indexed`;
* `src/llm_poc/run_pipeline.py` — `main` (the ingest pipeline);
* `src/retriever/retriever_collection.py` — `retrieve_context`,
  `format_context`, `answer`, with `GeminiClient.generate` from
  `src/clients/gemini_client.py`;
* `src/utils/table_extractor.py`, `src/utils/image_extractor.py`,
  `src/utils/text_loader.py` — the page-cap logic.

Python strings are modelled as `List Char` (`Str`), distance scores as `ℚ`,
and the external collaborators (hashlib digests, the LangChain text
splitter, file contents, the Chroma store, the LLM call) as explicit
parameters or explicit state, so that every repository-authored computation
is an executable Lean definition.
-/

namespace RagMM

/-- Python strings, modelled as character lists so that slicing, length and
concatenation are directly expressible. -/
abbrev Str := List Char

/-- Characters stripped by Python's `str.strip()` with no arguments. -/
def isPySpace (c : Char) : Bool :=
  c = ' ' || c = '\t' || c = '\n' || c = '\r' || c = '\x0b' || c = '\x0c'

/-- Python `s.strip()`: drop leading and trailing whitespace. -/
def pyStrip (s : Str) : Str :=
  ((s.dropWhile isPySpace).reverse.dropWhile isPySpace).reverse

/-- Python `x or d` for a string-or-None `x`: the fallback `d` is used when
`x` is `None` or the empty string (both falsy). -/
def pyOrStr (x : Option Str) (d : Str) : Str :=
  match x with
  | none => d
  | some s => if s = [] then d else s

/-- Decimal digits of a natural number, via `Nat.toDigits`. -/
def natStr (n : Nat) : Str := Nat.toDigits 10 n

/-- Python `f"{n:0wd}"`: decimal rendering left-padded with zeros to width
`w` (longer renderings are kept unpadded, as in Python). -/
def padNat (w : Nat) (n : Nat) : Str :=
  List.replicate (w - (natStr n).length) '0' ++ natStr n

/-- Decimal rendering of an integer (minus sign for negatives). -/
def intStr (i : Int) : Str :=
  if i < 0 then '-' :: natStr i.natAbs else natStr i.natAbs

/-- `pathlib.Path(p).name`: the final path component. -/
def pathName (p : Str) : Str :=
  (p.reverse.takeWhile (· ≠ '/')).reverse

/-- `pathlib.Path(p).stem`: the final component without its last suffix. -/
def pathStem (p : Str) : Str :=
  let n := pathName p
  let ext := n.reverse.takeWhile (· ≠ '.')
  if ext.length = n.length then n else n.take (n.length - ext.length - 1)

/-- A metadata value as stored in a Python dict destined for Chroma.
Scalars mirror Python `str`/`int`/`float`/`bool`/`None`; `comp` stands for
any non-scalar (composite) Python object, carrying the rendering that
Python's `str(...)` would produce for it. -/
inductive MVal where
  | s (v : Str)
  | i (v : Int)
  | f (v : ℚ)
  | b (v : Bool)
  | null
  | comp (render : Str)
deriving DecidableEq, Repr

/-- Chroma-safe scalar check: string, number, boolean or null. -/
def MVal.isScalar : MVal → Bool
  | .s _ => true
  | .i _ => true
  | .f _ => true
  | .b _ => true
  | .null => true
  | .comp _ => false

/-- Python `str(v)` as used by `_clean_meta` on a non-scalar value. -/
def MVal.pyStr : MVal → Str
  | .s v => v
  | .i v => intStr v
  | .f _ => []
  | .b v => if v then "True".toList else "False".toList
  | .null => "None".toList
  | .comp r => r

/-- Python truthiness of a metadata value (`comp` models the non-empty
composite objects that actually flow through this code, e.g. the dict the
pipeline passes as `doc_tag`, so it counts as truthy). -/
def MVal.truthy : MVal → Bool
  | .s v => v ≠ []
  | .i v => v ≠ 0
  | .f v => v ≠ 0
  | .b v => v
  | .null => false
  | .comp _ => true

/-- A metadata mapping: an insertion-ordered association list, mirroring a
Python dict with distinct literal keys. -/
abbrev Meta := List (Str × MVal)

/-- First value bound to key `k`, mirroring a Python dict lookup. -/
def metaLookup (k : Str) : Meta → Option MVal
  | [] => none
  | (k', v) :: rest => if k' = k then some v else metaLookup k rest

/-- `chroma_client._clean_meta`: keep scalar values (str/int/float/bool/None)
unchanged and replace every other value by its `str(...)` rendering.  The
function is total: a value that cannot be kept is stringified locally,
never reported as an error. -/
def clean_meta (meta : Meta) : Meta :=
  meta.map (fun kv => (kv.1, if kv.2.isScalar then kv.2 else .s kv.2.pyStr))

/-- A bounding box `(x0, y0, x1, y1)` in page coordinates. -/
abbrev BBox := ℚ × ℚ × ℚ × ℚ

/-- Python `round`: round half to even (banker's rounding), as used by
`_bbox_sig` on bounding-box coordinates. -/
def pyRound (q : ℚ) : Int :=
  let f := ⌊q⌋
  let frac := q - f
  if frac < 1/2 then f
  else if 1/2 < frac then f + 1
  else if f % 2 = 0 then f else f + 1

/-- `chroma_client._bbox_sig`: `"none"` for a missing box, otherwise the
rounded coordinates joined by underscores. -/
def bbox_sig (bbox : Option BBox) : Str :=
  match bbox with
  | none => "none".toList
  | some (x0, y0, x1, y1) =>
      intStr (pyRound x0) ++ ['_'] ++ intStr (pyRound y0) ++ ['_'] ++
      intStr (pyRound x1) ++ ['_'] ++ intStr (pyRound y1)

/-- `chroma_client._bbox_fields`: flatten a bounding box to four scalar
metadata fields, all null when the box is absent. -/
def bbox_fields (bbox : Option BBox) : Meta :=
  match bbox with
  | none =>
      [("bbox_x0".toList, .null), ("bbox_y0".toList, .null),
       ("bbox_x1".toList, .null), ("bbox_y1".toList, .null)]
  | some (x0, y0, x1, y1) =>
      [("bbox_x0".toList, .f x0), ("bbox_y0".toList, .f y0),
       ("bbox_x1".toList, .f x1), ("bbox_y1".toList, .f y1)]

/-- A LangChain `Document` handed to the splitter (content opaque here). -/
structure TextDoc where
  content : Str
deriving DecidableEq, Repr

/-- One chunk produced by `RecursiveCharacterTextSplitter.split_documents`:
its text plus the metadata fields `index_text_docs` reads. `page` mirrors
`c.metadata.get("page", 0)` (0-based, defaulted to 0 when missing). -/
structure Chunk where
  page_content : Str
  page : Option Nat
  source : Option Str
  file_name : Option Str
  page_label : Option Str
deriving DecidableEq, Repr

/-- `TableArtifact` fields consumed by `index_table_artifacts`
(`src/utils/table_extractor.py`). -/
structure TableArtifact where
  table_id : Str
  pdf_path : Str
  page : Nat
  bbox : Option BBox
  csv_path : Str
  json_path : Str
  preview_text : Str
deriving DecidableEq, Repr

/-- `ImageArtifact` fields consumed by `index_image_artifacts`
(`src/utils/image_extractor.py`). -/
structure ImageArtifact where
  image_id : Str
  pdf_path : Str
  page : Nat
  bbox : Option BBox
  png_path : Str
  caption : Str
  ocr_text : Option Str
deriving DecidableEq, Repr

/-- The external collaborators of the ingestion core, passed explicitly:
cryptographic digests from `hashlib`, file contents, and the LangChain
text splitter. -/
structure Ext where
  /-- `hashlib.sha256(data).hexdigest()` of a byte string. -/
  sha256hex : List Nat → Str
  /-- `hashlib.sha1` hexdigest of the file at a path. -/
  sha1hexFile : Str → Str
  /-- contents of the file at a path, as bytes. -/
  fileBytes : Str → List Nat
  /-- `RecursiveCharacterTextSplitter(...).split_documents`. -/
  split : List TextDoc → List Chunk

/-- `helpers.file_sha256`: the full sha256 hexdigest (64 hex chars) of the
file's bytes. -/
def file_sha256 (E : Ext) (path : Str) : Str :=
  E.sha256hex (E.fileBytes path)

/-- `chroma_client._file_sha256`: the sha256 hexdigest of the file's bytes
truncated to its first 16 hex chars. -/
def chroma_file_sha256 (E : Ext) (path : Str) : Str :=
  (E.sha256hex (E.fileBytes path)).take 16

/-- `chroma_client._sha1_file`: sha1 hexdigest truncated to 12 hex chars. -/
def sha1_file (E : Ext) (path : Str) : Str :=
  (E.sha1hexFile path).take 12

/-- One batch handed to `store.add_texts(texts=..., metadatas=..., ids=...)`:
three equal-length sequences. -/
structure Batch where
  ids : List Str
  texts : List Str
  metas : List Meta
deriving DecidableEq, Repr

/-- The metadata dict built for one text chunk in `index_text_docs`
(already passed through `_clean_meta`). -/
def textChunkMeta (pdf_path dh : Str) (tag : MVal) (c : Chunk) (page : Nat) : Meta :=
  clean_meta
    [("type".toList, .s "text".toList),
     ("pdf_path".toList, .s (pyOrStr c.source pdf_path)),
     ("file_name".toList, .s (pyOrStr c.file_name (pathName pdf_path))),
     ("page".toList, .i page),
     ("page_label".toList, match c.page_label with | none => .null | some v => .s v),
     ("doc_tag".toList, tag),
     ("doc_hash".toList, .s dh)]

/-- The vector id built for one chunk:
`f"{dh}:text:p{page:04d}:c{i:04d}"` with `page = c.metadata.get("page", 0) + 1`
and `i` the chunk's enumeration index. -/
def textChunkId (dh : Str) (c : Chunk) (i : Nat) : Str :=
  dh ++ ":text:p".toList ++ padNat 4 ((c.page.getD 0) + 1) ++ ":c".toList ++ padNat 4 i

/-- The loop body of `index_text_docs`: append id, text and metadata for
the chunk with (document-wide) enumeration index `i`. -/
def textBatchStep (pdf_path dh : Str) (tag : MVal) (acc : Batch) (ic : Nat × Chunk) : Batch :=
  { ids := acc.ids ++ [textChunkId dh ic.2 ic.1],
    texts := acc.texts ++ [ic.2.page_content],
    metas := acc.metas ++ [textChunkMeta pdf_path dh tag ic.2 ((ic.2.page.getD 0) + 1)] }

/-- `doc_tag or Path(pdf_path).stem` as evaluated inside each indexer. -/
def resolveTag (doc_tag : Option MVal) (pdf_path : Str) : MVal :=
  match doc_tag with
  | some v => if v.truthy then v else .s (pathStem pdf_path)
  | none => .s (pathStem pdf_path)

/-- `chroma_client.index_text_docs`: split the page documents into chunks
and build one upsert batch with ids
`{dh}:text:p{page:04d}:c{i:04d}` where `i` enumerates the chunks of the
whole document.  Returns `none` (no upsert at all) when `docs` is empty. -/
def index_text_docs (E : Ext) (docs : List TextDoc) (pdf_path : Str)
    (doc_hash : Option Str) (doc_tag : Option MVal) : Option Batch :=
  if docs = [] then none
  else
    let dh := doc_hash.getD (chroma_file_sha256 E pdf_path)
    let tag := resolveTag doc_tag pdf_path
    let chunks := E.split docs
    some (chunks.enum.foldl (textBatchStep pdf_path dh tag) ⟨[], [], []⟩)

/-- The indexed text of one table: the stripped preview, or the fallback
`"Table on page {page}"` when the preview is blank. -/
def tableText (preview : Str) (page : Nat) : Str :=
  let s := pyStrip preview
  if s = [] then "Table on page ".toList ++ natStr page else s

/-- The metadata dict built for one table in `index_table_artifacts`. -/
def tableMeta (dh : Str) (tag : MVal) (t : TableArtifact) : Meta :=
  clean_meta
    ([("type".toList, .s "table".toList),
      ("table_id".toList, .s t.table_id),
      ("pdf_path".toList, .s t.pdf_path),
      ("file_name".toList, .s (pathName t.pdf_path)),
      ("page".toList, .i t.page),
      ("csv_path".toList, .s t.csv_path),
      ("json_path".toList, .s t.json_path),
      ("bbox_sig".toList, .s (bbox_sig t.bbox)),
      ("doc_tag".toList, tag),
      ("doc_hash".toList, .s dh)] ++ bbox_fields t.bbox)

/-- The loop body of `index_table_artifacts` for the table with enumeration
index `i`. -/
def tableBatchStep (dh : Str) (tag : MVal) (acc : Batch) (it : Nat × TableArtifact) : Batch :=
  let i := it.1
  let t := it.2
  let sig := bbox_sig t.bbox
  { ids := acc.ids ++
      [dh ++ ":table:p".toList ++ padNat 4 t.page ++ [':'] ++ sig ++ [':'] ++ padNat 2 i],
    texts := acc.texts ++ [tableText t.preview_text t.page],
    metas := acc.metas ++ [tableMeta dh tag t] }

/-- `chroma_client.index_table_artifacts`: one vector per table, text from
the preview (with page fallback), stable ids from page + bbox signature +
enumeration index.  Returns `none` when `tables` is empty. -/
def index_table_artifacts (E : Ext) (tables : List TableArtifact) (pdf_path : Str)
    (doc_hash : Option Str) (doc_tag : Option MVal) : Option Batch :=
  if tables = [] then none
  else
    let dh := doc_hash.getD (chroma_file_sha256 E pdf_path)
    let tag := resolveTag doc_tag pdf_path
    some (tables.enum.foldl (tableBatchStep dh tag) ⟨[], [], []⟩)

/-- The indexed text of one image, from `index_image_artifacts`:
stripped caption, extended by `"\nOCR: "` (or `"OCR: "` when the caption is
blank) plus the stripped OCR text when `ocr_text` is truthy, the whole
stripped again; falls back to `"Image on page {page} of {file name}"` when
the resulting body is empty. -/
def imageText (caption : Str) (ocr_text : Option Str) (page : Nat) (pdf_path : Str) : Str :=
  let body0 := pyStrip caption
  let body1 :=
    match ocr_text with
    | some o =>
        if o ≠ [] then
          pyStrip (body0 ++ (if body0 ≠ [] then "\nOCR: ".toList else "OCR: ".toList) ++ pyStrip o)
        else body0
    | none => body0
  if body1 = [] then
    "Image on page ".toList ++ natStr page ++ " of ".toList ++ pathName pdf_path
  else body1

/-- The metadata dict built for one image in `index_image_artifacts`. -/
def imageMeta (dh : Str) (tag : MVal) (img : ImageArtifact) : Meta :=
  clean_meta
    ([("type".toList, .s "image".toList),
      ("image_id".toList, .s img.image_id),
      ("pdf_path".toList, .s img.pdf_path),
      ("file_name".toList, .s (pathName img.pdf_path)),
      ("png_path".toList, .s img.png_path),
      ("page".toList, .i img.page),
      ("bbox_sig".toList, .s (bbox_sig img.bbox)),
      ("has_caption".toList, .b (img.caption ≠ [])),
      ("has_ocr".toList, .b (match img.ocr_text with | some o => o ≠ [] | none => false)),
      ("doc_tag".toList, tag),
      ("doc_hash".toList, .s dh)] ++ bbox_fields img.bbox)

/-- The loop body of `index_image_artifacts` for one image. -/
def imageBatchStep (E : Ext) (dh : Str) (tag : MVal) (acc : Batch) (img : ImageArtifact) : Batch :=
  let imsig := sha1_file E img.png_path
  { ids := acc.ids ++ [dh ++ ":image:p".toList ++ padNat 4 img.page ++ [':'] ++ imsig],
    texts := acc.texts ++ [imageText img.caption img.ocr_text img.page img.pdf_path],
    metas := acc.metas ++ [imageMeta dh tag img] }

/-- `chroma_client.index_image_artifacts`: one vector per image, text from
caption/OCR with fallback, ids from the image file's sha1.  Returns `none`
when `images` is empty. -/
def index_image_artifacts (E : Ext) (images : List ImageArtifact) (pdf_path : Str)
    (doc_hash : Option Str) (doc_tag : Option MVal) : Option Batch :=
  if images = [] then none
  else
    let dh := doc_hash.getD (chroma_file_sha256 E pdf_path)
    let tag := resolveTag doc_tag pdf_path
    some (images.foldl (imageBatchStep E dh tag) ⟨[], [], []⟩)

/-- One stored vector record in a Chroma collection: id, document text and
metadata (the embedding itself plays no role in the verified properties). -/
structure StoreRec where
  id : Str
  text : Str
  meta : Meta
deriving DecidableEq, Repr

/-- The persisted Chroma store: the records of each named collection.
A collection that was never written to is the empty list. -/
def ChromaState := Str → List StoreRec

/-- The records of one upsert batch, in batch order. -/
def batchRecs (b : Batch) : List StoreRec :=
  (b.ids.zip (b.texts.zip b.metas)).map (fun x => ⟨x.1, x.2.1, x.2.2⟩)

/-- One step of the upsert: a record whose id already exists overwrites
the stored record, otherwise it is appended. -/
def upsertStep (acc : List StoreRec) (r : StoreRec) : List StoreRec :=
  if acc.any (fun o => o.id = r.id) then
    acc.map (fun o => if o.id = r.id then r else o)
  else acc ++ [r]

/-- Upsert semantics of `store.add_texts(..., ids=...)`. -/
def upsertRecords (old : List StoreRec) (new : List StoreRec) : List StoreRec :=
  new.foldl upsertStep old

/-- Apply one `add_texts` call to the store. -/
def applyUpsert (st : ChromaState) (name : Str) (b : Batch) : ChromaState :=
  fun n => if n = name then upsertRecords (st name) (batchRecs b) else st n

/-- The store with no collections written yet. -/
def emptyState : ChromaState := fun _ => []

/-- `helpers.COLLECTIONS`: the known collection names. -/
def COLLECTIONS : List Str :=
  ["pdf_text".toList, "pdf_tables".toList, "pdf_images".toList]

/-- Whether a stored record matches the gate's filter
`where={"doc_hash": doc_hash}`. -/
def matchesDocHash (doc_hash : Str) (r : StoreRec) : Bool :=
  metaLookup "doc_hash".toList r.meta = some (.s doc_hash)

/-- The existence probe `store._collection.get(where={"doc_hash": ...},
include=["metadatas"], limit=1)`: at most one matching record. -/
def chromaGetDocHash (st : ChromaState) (name doc_hash : Str) : List StoreRec :=
  ((st name).filter (matchesDocHash doc_hash)).take 1

/-- The collection loop of `helpers.is_already_indexed`: probe each
collection in turn and stop at the first hit. -/
def isIndexedLoop (st : ChromaState) (doc_hash : Str) : List Str → Bool
  | [] => false
  | name :: rest =>
      if chromaGetDocHash st name doc_hash = [] then isIndexedLoop st doc_hash rest
      else true

/-- `helpers.is_already_indexed`: true iff some known collection contains a
record with metadata `doc_hash == <doc_hash>`, found via limit-1 probes. -/
def is_already_indexed (doc_hash : Str) (st : ChromaState) : Bool :=
  isIndexedLoop st doc_hash COLLECTIONS

/-- The extraction result dict produced by `ingest_pdf_multimodal` as
consumed by `index_all_modalities` (`None` artifact lists and empty lists
are both falsy in the indexers, so they are merged here). -/
structure ExtractionResult where
  pdf_path : Str
  text : List TextDoc
  tables : List TableArtifact
  images : List ImageArtifact

/-- `chroma_client.index_all_modalities`: resolve the document hash
(falling back to the truncated `_file_sha256`) and the tag, then run the
three indexers on the collections `pdf_text` / `pdf_tables` / `pdf_images`.
Returns the per-collection batches (`none` = indexer skipped, no upsert).
The `pdf_path` non-emptiness check (`ValueError`) is a precondition here. -/
def index_all_modalities (E : Ext) (res : ExtractionResult)
    (doc_hash : Option Str) (doc_tag : Option MVal) : List (Str × Option Batch) :=
  let dh := doc_hash.getD (chroma_file_sha256 E res.pdf_path)
  let tag := resolveTag doc_tag res.pdf_path
  [("pdf_text".toList, index_text_docs E res.text res.pdf_path (some dh) (some tag)),
   ("pdf_tables".toList, index_table_artifacts E res.tables res.pdf_path (some dh) (some tag)),
   ("pdf_images".toList, index_image_artifacts E res.images res.pdf_path (some dh) (some tag))]

/-- The observable outcome of one `run_pipeline.main` run: the store after
the run, the upsert calls issued, and whether ingestion was skipped. -/
structure RunResult where
  state : ChromaState
  upserts : List (Str × Batch)
  skipped : Bool

/-- The upsert calls issued by the ingest branch of `run_pipeline.main`:
`index_all_modalities` is called with only
`doc_tag={"doc_hash": doc_hash, "file_name": pdf_path.name}` and *not*
`doc_hash`, exactly as the source does (the dict lands in the `doc_tag`
metadata field; the `doc_hash` field falls back to the truncated
`_file_sha256`). -/
def ingestEvents (E : Ext) (res : ExtractionResult) : List (Str × Batch) :=
  let doc_hash := file_sha256 E res.pdf_path
  let tagDict : MVal :=
    .comp ("doc_hash=".toList ++ doc_hash ++ ", file_name=".toList ++ pathName res.pdf_path)
  (index_all_modalities E res none (some tagDict)).filterMap
    (fun nb => nb.2.map (fun b => (nb.1, b)))

/-- The ingest flow of `run_pipeline.main` after argument handling:
compute `doc_hash = file_sha256(pdf_path)` (full digest), skip when
`is_already_indexed(doc_hash)` and not `force`, otherwise extract, index
and upsert. -/
def run_pipeline (E : Ext) (res : ExtractionResult) (force : Bool)
    (st : ChromaState) : RunResult :=
  let doc_hash := file_sha256 E res.pdf_path
  let already := is_already_indexed doc_hash st
  if already && !force then ⟨st, [], true⟩
  else
    ⟨(ingestEvents E res).foldl (fun s e => applyUpsert s e.1 e.2) st,
      ingestEvents E res, false⟩

/-- One result of `store.similarity_search_with_score`: document text,
metadata and distance score (lower = closer).  Scores are modelled as
exact rationals ordered the way Python compares the store's floats. -/
structure SearchRes where
  text : Str
  meta : Meta
  score : ℚ
deriving DecidableEq, Repr

/-- One entry of the fused `ctx` list in `retrieve_context`:
`{"collection": name, "doc": doc, "score": float(score)}`. -/
structure Hit where
  collection : Str
  text : Str
  meta : Meta
  score : ℚ
deriving DecidableEq, Repr

/-- The fan-out/concatenation loop of `retrieve_context`: per-collection
results (in the retriever's collection order, a collection that does not
exist contributing `[]`) flattened, each hit tagged with its source
collection. -/
def fuse (results : List (Str × List SearchRes)) : List Hit :=
  results.flatMap (fun nr => nr.2.map (fun r => ⟨nr.1, r.text, r.meta, r.score⟩))

/-- The comparison used by `ctx.sort(key=lambda x: x["score"])`. -/
def hitLE (a b : Hit) : Bool := a.score ≤ b.score

/-- `RAGRetriever.retrieve_context` (both retriever variants): concatenate
the per-collection results, sort ascending by score with Python's stable
`list.sort` (embedded as the stable `List.mergeSort`), and keep the first
`top_n`. -/
def retrieve_context (results : List (Str × List SearchRes)) (top_n : Nat) : List Hit :=
  ((fuse results).mergeSort hitLE).take top_n

/-- The continuation marker `" …"` appended by `format_context` on a hard
truncation. -/
def contMarker : Str := " …".toList

/-- Python `t[:m]` on a string: a non-negative bound keeps the first `m`
characters, a negative bound drops the last `|m|`. -/
def pySliceTo (t : Str) (m : Int) : Str :=
  if 0 ≤ m then t.take m.toNat else t.take (t.length - m.natAbs)

/-- The chunk text rendered by `format_context` for one hit: the stripped
page content, hard-cut to `max_chars_per_chunk` characters with the
continuation marker appended — but only when `max_chars_per_chunk` is
truthy (non-zero) and the text is longer. -/
def renderChunkText (text : Str) (max_chars_per_chunk : Int) : Str :=
  let t := pyStrip text
  if max_chars_per_chunk ≠ 0 ∧ max_chars_per_chunk < (t.length : Int) then
    pySliceTo t max_chars_per_chunk ++ contMarker
  else t

/-- One labelled block of `format_context`:
`"[{collection} p{page}] {text}\n(Source: {file_name or pdf_path})"`. -/
def formatBlock (h : Hit) (max_chars_per_chunk : Int) : Str :=
  let src := pyOrStr (match metaLookup "file_name".toList h.meta with
                      | some (.s v) => some v
                      | _ => none)
             (match metaLookup "pdf_path".toList h.meta with
              | some (.s v) => v
              | _ => [])
  let pageStr := match metaLookup "page".toList h.meta with
                 | some (.i p) => intStr p
                 | _ => "None".toList
  ['['] ++ h.collection ++ " p".toList ++ pageStr ++ "] ".toList ++
    renderChunkText h.text max_chars_per_chunk ++
    "\n(Source: ".toList ++ src ++ [')']

/-- `RAGRetriever.format_context` (retriever_collection variant): one
labelled block per retained hit. -/
def format_context (snips : List Hit) (max_chars_per_chunk : Int) : List Str :=
  snips.map (fun h => formatBlock h max_chars_per_chunk)

/-- `GeminiClient.generate` on the text-only path with no response schema
(as called from `answer`): the external `llm.invoke` outcome is passed in
explicitly; an exception from it is caught, logged and turned into `None`
— it is never re-raised. -/
def generate (invokeOutcome : Except Str Str) : Option Str :=
  match invokeOutcome with
  | .ok content => some content
  | .error _ => none

/-- The `answer_text` normalisation in `RAGRetriever.answer`: a plain
string response is kept, anything without a `content` attribute (in
particular the `None` returned by `generate` on failure) is passed through
`str(...)`. -/
def answerTextOf (resp : Option Str) : Str :=
  match resp with
  | some s => s
  | none => "None".toList

/-- `RAGRetriever.answer` (retriever_collection variant): retrieve, format,
call the model once, and return `(answer_text, hits, context)`.  The
function is total: it returns normally on every `invokeOutcome`. -/
def answer (results : List (Str × List SearchRes)) (invokeOutcome : Except Str Str)
    (top_n : Nat) (max_chars_per_chunk : Int) : Str × List Hit × List Str :=
  let snips := retrieve_context results top_n
  let context := format_context snips max_chars_per_chunk
  (answerTextOf (generate invokeOutcome), snips, context)

/-- Modelled from the spec (refinement target for the error-handling
claim): an `answer` whose answering-capability failure propagates as a
hard failure of the call, per "an answering-capability failure propagates
as a hard failure of `answer()`". -/
def spec_answer (results : List (Str × List SearchRes)) (invokeOutcome : Except Str Str)
    (top_n : Nat) (max_chars_per_chunk : Int) : Except Str (Str × List Hit × List Str) :=
  match invokeOutcome with
  | .error e => .error e
  | .ok content =>
      let snips := retrieve_context results top_n
      .ok (content, snips, format_context snips max_chars_per_chunk)

/-- The page cap shared by `extract_tables` and `extract_images`:
`limit = total if not num_pages or num_pages <= 0 else min(num_pages, total)`
(`num_pages` is `None`, or any int; `not num_pages` is true for `None` and
`0`). -/
def extractLimit (num_pages : Option Int) (total : Nat) : Nat :=
  match num_pages with
  | none => total
  | some n => if n ≤ 0 then total else min n.toNat total

/-- `text_loader.load_pdf_text`: all pages when `num_pages` is falsy or
non-positive, else the first `min(num_pages, len(pages))` pages. -/
def load_pdf_text (pages : List TextDoc) (num_pages : Option Int) : List TextDoc :=
  match num_pages with
  | none => pages
  | some n => if n ≤ 0 then pages else pages.take (min n.toNat pages.length)

/-- The page loop of `extract_tables`: pages `0 .. limit-1` are processed;
the per-page table finding (pdfplumber strategies, CSV/JSON side files) is
the external `perPage`, and each artifact is stamped with the 1-based page
number `pi + 1`. -/
def extract_tables (perPage : Nat → List (Str × Option BBox)) (total : Nat)
    (num_pages : Option Int) : List (Nat × Str × Option BBox) :=
  (List.range (extractLimit num_pages total)).flatMap
    (fun pi => (perPage pi).map (fun t => (pi + 1, t)))

/-- The page loop of `extract_images`: same page cap and 1-based page
stamping, with the per-page renders/embedded extractions external. -/
def extract_images (perPage : Nat → List (Str × Option BBox)) (total : Nat)
    (num_pages : Option Int) : List (Nat × Str × Option BBox) :=
  (List.range (extractLimit num_pages total)).flatMap
    (fun pi => (perPage pi).map (fun im => (pi + 1, im)))

/-- Modelled from the spec (refinement target for the text-chunk-id claim):
ids of the form `hash(doc):text:p{page:04d}:c{chunk_index:04d}` where the
chunk index is "the chunk's index within its page after splitting (i.e.,
chunk numbering restarts on each page)". -/
def spec_text_chunk_ids (dh : Str) (chunks : List Chunk) : List Str :=
  chunks.enum.map (fun ic =>
    dh ++ ":text:p".toList ++ padNat 4 ((ic.2.page.getD 0) + 1) ++ ":c".toList ++
      padNat 4 ((chunks.take ic.1).countP (fun c => c.page.getD 0 = ic.2.page.getD 0)))

/-- A two-chunk split (one chunk on page 1, one on page 2) used as concrete
input when separating the generated ids from the per-page numbering. -/
def twoPageChunks : List Chunk :=
  [⟨"alpha".toList, some 0, none, none, none⟩,
   ⟨"beta".toList, some 1, none, none, none⟩]

/-- A concrete external-collaborator instance: sha256 of every byte string
is the (valid 64-hex-char) digest of the empty input, sha1 a fixed 40-char
digest, files empty, and the splitter returning `twoPageChunks`. -/
def ext0 : Ext where
  sha256hex := fun _ =>
    "e3b0c44298fc1c149afbf4c8996fb92427ae41e4649b934ca495991b7852b855".toList
  sha1hexFile := fun _ => "da39a3ee5e6b4b0d3255bfef95601890afd80709".toList
  fileBytes := fun _ => []
  split := fun _ => twoPageChunks

/-- A concrete extraction result over `ext0`: one page document, no tables,
no images. -/
def res0 : ExtractionResult where
  pdf_path := "docs/report.pdf".toList
  text := [⟨"alpha beta".toList⟩]
  tables := []
  images := []

/-- A concrete table artifact with whitespace-only preview text. -/
def table0 : TableArtifact where
  table_id := "tbl-0003-00-abcdef".toList
  pdf_path := "docs/report.pdf".toList
  page := 3
  bbox := none
  csv_path := "artifacts_pdf/tables/report/tbl.csv".toList
  json_path := "artifacts_pdf/tables/report/tbl.json".toList
  preview_text := "   ".toList

/-- The batch produced by indexing `[table0]` with document hash `"d"`. -/
def tbatch0 : Batch :=
  (index_table_artifacts ext0 [table0] "docs/report.pdf".toList
    (some "d".toList) none).getD ⟨[], [], []⟩

/-- The batch produced by indexing `res0`'s text with document hash `"d"`. -/
def textBatch0 : Batch :=
  (index_text_docs ext0 res0.text "docs/report.pdf".toList
    (some "d".toList) none).getD ⟨[], [], []⟩

/-! ## Helper lemmas -/

theorem dropWhile_fix_head_false {p : Char → Bool} {a : Char} {t : List Char}
    (h : (a :: t).dropWhile p = a :: t) : p a = false := by
  by_cases hpa : p a
  · rw [List.dropWhile_cons, if_pos hpa] at h
    have hle := (@List.dropWhile_sublist _ t p).length_le
    have hlen := congrArg List.length h
    simp at hlen
    omega
  · simpa using hpa

theorem dropWhile_eq_self_append {p : Char → Bool} {l : List Char} (m : List Char)
    (hl : l.dropWhile p = l) (hne : l ≠ []) : (l ++ m).dropWhile p = l ++ m := by
  cases l with
  | nil => exact absurd rfl hne
  | cons a t =>
      have hpa := dropWhile_fix_head_false hl
      simp [List.dropWhile_cons, hpa]

theorem dropWhile_self_idem {p : Char → Bool} (l : List Char) :
    (l.dropWhile p).dropWhile p = l.dropWhile p := by
  induction l with
  | nil => rfl
  | cons a t ih =>
      by_cases h : p a
      · simpa [List.dropWhile_cons, h] using ih
      · simp [List.dropWhile_cons, h]

theorem pyStrip_noTrail (s : Str) :
    (pyStrip s).reverse.dropWhile isPySpace = (pyStrip s).reverse := by
  unfold pyStrip
  rw [List.reverse_reverse]
  exact dropWhile_self_idem _

theorem pyStrip_noLead (s : Str) :
    (pyStrip s).dropWhile isPySpace = pyStrip s := by
  unfold pyStrip
  cases hR : ((s.dropWhile isPySpace).reverse.dropWhile isPySpace).reverse with
  | nil => simp
  | cons a t =>
      have hXfix : (s.dropWhile isPySpace).dropWhile isPySpace = s.dropWhile isPySpace :=
        dropWhile_self_idem s
      have h1 : (s.dropWhile isPySpace).reverse.takeWhile isPySpace ++
          (s.dropWhile isPySpace).reverse.dropWhile isPySpace =
          (s.dropWhile isPySpace).reverse :=
        List.takeWhile_append_dropWhile _ _
      have h2 := congrArg List.reverse h1
      simp only [List.reverse_append, List.reverse_reverse] at h2
      rw [hR] at h2
      have hXfix' :
          ((a :: t) ++ ((s.dropWhile isPySpace).reverse.takeWhile isPySpace).reverse).dropWhile
            isPySpace =
          (a :: t) ++ ((s.dropWhile isPySpace).reverse.takeWhile isPySpace).reverse := by
        rw [h2]; exact hXfix
      rw [List.cons_append] at hXfix'
      have hpa : isPySpace a = false := dropWhile_fix_head_false hXfix'
      simp [List.dropWhile_cons, hpa]

theorem pyStrip_append_of {A B : Str} (M : Str)
    (hA : A.dropWhile isPySpace = A) (hAne : A ≠ [])
    (hB : B.reverse.dropWhile isPySpace = B.reverse) (hBne : B ≠ []) :
    pyStrip (A ++ M ++ B) = A ++ M ++ B := by
  unfold pyStrip
  rw [List.append_assoc, dropWhile_eq_self_append _ hA hAne]
  rw [show (A ++ (M ++ B)).reverse = B.reverse ++ (M.reverse ++ A.reverse) by simp]
  rw [dropWhile_eq_self_append _ hB (by simpa using hBne)]
  simp

theorem pyStrip_eq_nil_of_all {s : Str} (h : ∀ c ∈ s, isPySpace c) : pyStrip s = [] := by
  unfold pyStrip
  rw [List.dropWhile_eq_nil_iff.mpr (fun c hc => h c hc)]
  rfl

theorem metaLookup_clean (k : Str) (m : Meta) :
    metaLookup k (clean_meta m) =
      (metaLookup k m).map (fun v => if v.isScalar then v else .s v.pyStr) := by
  induction m with
  | nil => rfl
  | cons kv rest ih =>
      by_cases h : kv.1 = k
      · simp [clean_meta, metaLookup, h]
      · simpa [clean_meta, metaLookup, h] using ih

theorem metaLookup_textChunkMeta (pdf_path dh : Str) (tag : MVal) (c : Chunk) (page : Nat) :
    metaLookup "doc_hash".toList (textChunkMeta pdf_path dh tag c page) = some (.s dh) := by
  rw [textChunkMeta, metaLookup_clean]
  have h1 : ("type".toList : Str) ≠ "doc_hash".toList := by decide
  have h2 : ("pdf_path".toList : Str) ≠ "doc_hash".toList := by decide
  have h3 : ("file_name".toList : Str) ≠ "doc_hash".toList := by decide
  have h4 : ("page".toList : Str) ≠ "doc_hash".toList := by decide
  have h5 : ("page_label".toList : Str) ≠ "doc_hash".toList := by decide
  have h6 : ("doc_tag".toList : Str) ≠ "doc_hash".toList := by decide
  simp [metaLookup, h1, h2, h3, h4, h5, h6, MVal.isScalar]

theorem metaLookup_tableMeta (dh : Str) (tag : MVal) (t : TableArtifact) :
    metaLookup "doc_hash".toList (tableMeta dh tag t) = some (.s dh) := by
  rw [tableMeta, metaLookup_clean]
  have h1 : ("type".toList : Str) ≠ "doc_hash".toList := by decide
  have h2 : ("table_id".toList : Str) ≠ "doc_hash".toList := by decide
  have h3 : ("pdf_path".toList : Str) ≠ "doc_hash".toList := by decide
  have h4 : ("file_name".toList : Str) ≠ "doc_hash".toList := by decide
  have h5 : ("page".toList : Str) ≠ "doc_hash".toList := by decide
  have h6 : ("csv_path".toList : Str) ≠ "doc_hash".toList := by decide
  have h7 : ("json_path".toList : Str) ≠ "doc_hash".toList := by decide
  have h8 : ("bbox_sig".toList : Str) ≠ "doc_hash".toList := by decide
  have h9 : ("doc_tag".toList : Str) ≠ "doc_hash".toList := by decide
  simp [metaLookup, h1, h2, h3, h4, h5, h6, h7, h8, h9, MVal.isScalar]

theorem metaLookup_imageMeta (dh : Str) (tag : MVal) (img : ImageArtifact) :
    metaLookup "doc_hash".toList (imageMeta dh tag img) = some (.s dh) := by
  rw [imageMeta, metaLookup_clean]
  have h1 : ("type".toList : Str) ≠ "doc_hash".toList := by decide
  have h2 : ("image_id".toList : Str) ≠ "doc_hash".toList := by decide
  have h3 : ("pdf_path".toList : Str) ≠ "doc_hash".toList := by decide
  have h4 : ("file_name".toList : Str) ≠ "doc_hash".toList := by decide
  have h5 : ("png_path".toList : Str) ≠ "doc_hash".toList := by decide
  have h6 : ("page".toList : Str) ≠ "doc_hash".toList := by decide
  have h7 : ("bbox_sig".toList : Str) ≠ "doc_hash".toList := by decide
  have h8 : ("has_caption".toList : Str) ≠ "doc_hash".toList := by decide
  have h9 : ("has_ocr".toList : Str) ≠ "doc_hash".toList := by decide
  have h10 : ("doc_tag".toList : Str) ≠ "doc_hash".toList := by decide
  simp [metaLookup, h1, h2, h3, h4, h5, h6, h7, h8, h9, h10, MVal.isScalar]

theorem foldl_textBatchStep (pdf_path dh : Str) (tag : MVal) :
    ∀ (l : List (Nat × Chunk)) (acc : Batch),
      l.foldl (textBatchStep pdf_path dh tag) acc =
        ⟨acc.ids ++ l.map (fun ic => textChunkId dh ic.2 ic.1),
         acc.texts ++ l.map (fun ic => ic.2.page_content),
         acc.metas ++ l.map (fun ic => textChunkMeta pdf_path dh tag ic.2 ((ic.2.page.getD 0) + 1))⟩
  | [], acc => by simp
  | ic :: rest, acc => by
      rw [List.foldl_cons, foldl_textBatchStep pdf_path dh tag rest]
      simp [textBatchStep]

theorem foldl_tableBatchStep (dh : Str) (tag : MVal) :
    ∀ (l : List (Nat × TableArtifact)) (acc : Batch),
      l.foldl (tableBatchStep dh tag) acc =
        ⟨acc.ids ++ l.map (fun it =>
            dh ++ ":table:p".toList ++ padNat 4 it.2.page ++ [':'] ++ bbox_sig it.2.bbox ++
              [':'] ++ padNat 2 it.1),
         acc.texts ++ l.map (fun it => tableText it.2.preview_text it.2.page),
         acc.metas ++ l.map (fun it => tableMeta dh tag it.2)⟩
  | [], acc => by simp
  | it :: rest, acc => by
      rw [List.foldl_cons, foldl_tableBatchStep dh tag rest]
      simp [tableBatchStep]

theorem foldl_imageBatchStep (E : Ext) (dh : Str) (tag : MVal) :
    ∀ (l : List ImageArtifact) (acc : Batch),
      l.foldl (imageBatchStep E dh tag) acc =
        ⟨acc.ids ++ l.map (fun img =>
            dh ++ ":image:p".toList ++ padNat 4 img.page ++ [':'] ++ sha1_file E img.png_path),
         acc.texts ++ l.map (fun img => imageText img.caption img.ocr_text img.page img.pdf_path),
         acc.metas ++ l.map (fun img => imageMeta dh tag img)⟩
  | [], acc => by simp
  | img :: rest, acc => by
      rw [List.foldl_cons, foldl_imageBatchStep E dh tag rest]
      simp [imageBatchStep]

theorem mem_upsertStep {r n : StoreRec} {acc : List StoreRec} (h : r ∈ upsertStep acc n) :
    r ∈ acc ∨ r = n := by
  unfold upsertStep at h
  by_cases hc : acc.any (fun o => o.id = n.id)
  · rw [if_pos hc] at h
    obtain ⟨o, ho, hr⟩ := List.mem_map.mp h
    by_cases ho2 : o.id = n.id
    · right
      rw [← hr]
      simp [ho2]
    · left
      rw [← hr]
      simpa [ho2] using ho
  · rw [if_neg hc] at h
    rcases List.mem_append.mp h with h | h
    · exact .inl h
    · right
      simpa using h

theorem mem_upsertRecords {r : StoreRec} :
    ∀ {new old : List StoreRec}, r ∈ upsertRecords old new → r ∈ old ∨ r ∈ new := by
  intro new
  induction new with
  | nil => intro old h; exact .inl h
  | cons n rest ih =>
      intro old h
      rcases @ih (upsertStep old n) h with h' | h'
      · rcases mem_upsertStep h' with h'' | h''
        · exact .inl h''
        · exact .inr (by simp [h''])
      · exact .inr (List.mem_cons_of_mem n h')

theorem mem_applyUpsert {st : ChromaState} {name : Str} {b : Batch} {n : Str} {r : StoreRec}
    (h : r ∈ applyUpsert st name b n) : r ∈ st n ∨ r ∈ batchRecs b := by
  unfold applyUpsert at h
  by_cases hn : n = name
  · rw [if_pos hn] at h
    rcases mem_upsertRecords h with h' | h'
    · rw [hn]; exact .inl h'
    · exact .inr h'
  · rw [if_neg hn] at h
    exact .inl h

theorem mem_foldl_applyUpsert :
    ∀ {events : List (Str × Batch)} {st : ChromaState} {n : Str} {r : StoreRec},
      r ∈ (events.foldl (fun s e => applyUpsert s e.1 e.2) st) n →
      r ∈ st n ∨ ∃ e ∈ events, r ∈ batchRecs e.2 := by
  intro events
  induction events with
  | nil => intro st n r h; exact .inl h
  | cons e rest ih =>
      intro st n r h
      rcases ih h with h' | ⟨e', he', hr⟩
      · rcases mem_applyUpsert h' with h'' | h''
        · exact .inl h''
        · exact .inr ⟨e, List.mem_cons_self e rest, h''⟩
      · exact .inr ⟨e', List.mem_cons_of_mem e he', hr⟩

theorem meta_of_mem_batchRecs {b : Batch} {r : StoreRec} (h : r ∈ batchRecs b) :
    r.meta ∈ b.metas := by
  unfold batchRecs at h
  obtain ⟨x, hx, hr⟩ := List.mem_map.mp h
  obtain ⟨i, tm⟩ := x
  obtain ⟨t, m⟩ := tm
  have h1 := List.of_mem_zip hx
  have h2 := List.of_mem_zip h1.2
  rw [← hr]
  exact h2.2

theorem chromaGet_eq_nil_iff (st : ChromaState) (name dh : Str) :
    chromaGetDocHash st name dh = [] ↔ ∀ r ∈ st name, matchesDocHash dh r = false := by
  unfold chromaGetDocHash
  rw [List.take_eq_nil_iff]
  simp [List.filter_eq_nil_iff]

theorem isIndexedLoop_iff (st : ChromaState) (dh : Str) :
    ∀ names : List Str,
      (isIndexedLoop st dh names = true ↔
        ∃ n ∈ names, ∃ r ∈ st n, matchesDocHash dh r = true)
  | [] => by simp [isIndexedLoop]
  | n :: rest => by
      by_cases h : chromaGetDocHash st n dh = []
      · have hnone := (chromaGet_eq_nil_iff st n dh).mp h
        rw [isIndexedLoop, if_pos h, isIndexedLoop_iff st dh rest]
        constructor
        · rintro ⟨m, hm, r, hr, hmm⟩
          exact ⟨m, List.mem_cons_of_mem _ hm, r, hr, hmm⟩
        · rintro ⟨m, hm, r, hr, hmm⟩
          rcases List.mem_cons.mp hm with rfl | hm'
          · rw [hnone r hr] at hmm
            exact absurd hmm (by simp)
          · exact ⟨m, hm', r, hr, hmm⟩
      · rw [isIndexedLoop, if_neg h]
        constructor
        · intro _
          obtain ⟨r, hr⟩ := List.exists_mem_of_ne_nil _ h
          have hr' := List.mem_of_mem_take hr
          have hmem := List.mem_filter.mp hr'
          exact ⟨n, List.mem_cons_self n rest, r, hmem.1, hmem.2⟩
        · intro _
          rfl

theorem clean_meta_scalar {m : Meta} {k : Str} {v : MVal} (h : (k, v) ∈ clean_meta m) :
    v.isScalar = true := by
  obtain ⟨⟨k0, v0⟩, _, heq⟩ := List.mem_map.mp h
  obtain ⟨-, hv⟩ := Prod.mk.injEq .. ▸ heq
  by_cases h0 : v0.isScalar
  · rw [← hv, if_pos h0]
    exact h0
  · rw [← hv, if_neg h0]
    rfl

theorem text_batch_dochash {E : Ext} {docs : List TextDoc} {pdf_path dh : Str}
    {tag : Option MVal} {b : Batch}
    (hb : index_text_docs E docs pdf_path (some dh) tag = some b) :
    ∀ m ∈ b.metas, metaLookup "doc_hash".toList m = some (.s dh) := by
  unfold index_text_docs at hb
  by_cases hd : docs = []
  · simp [hd] at hb
  · rw [if_neg hd] at hb
    simp only [Option.getD_some, foldl_textBatchStep] at hb
    obtain rfl := Option.some.inj hb
    intro m hm
    simp only [List.nil_append] at hm
    obtain ⟨ic, -, rfl⟩ := List.mem_map.mp hm
    exact metaLookup_textChunkMeta ..

theorem table_batch_dochash {E : Ext} {tables : List TableArtifact} {pdf_path dh : Str}
    {tag : Option MVal} {b : Batch}
    (hb : index_table_artifacts E tables pdf_path (some dh) tag = some b) :
    ∀ m ∈ b.metas, metaLookup "doc_hash".toList m = some (.s dh) := by
  unfold index_table_artifacts at hb
  by_cases hd : tables = []
  · simp [hd] at hb
  · rw [if_neg hd] at hb
    simp only [Option.getD_some, foldl_tableBatchStep] at hb
    obtain rfl := Option.some.inj hb
    intro m hm
    simp only [List.nil_append] at hm
    obtain ⟨it, -, rfl⟩ := List.mem_map.mp hm
    exact metaLookup_tableMeta ..

theorem image_batch_dochash {E : Ext} {images : List ImageArtifact} {pdf_path dh : Str}
    {tag : Option MVal} {b : Batch}
    (hb : index_image_artifacts E images pdf_path (some dh) tag = some b) :
    ∀ m ∈ b.metas, metaLookup "doc_hash".toList m = some (.s dh) := by
  unfold index_image_artifacts at hb
  by_cases hd : images = []
  · simp [hd] at hb
  · rw [if_neg hd] at hb
    simp only [Option.getD_some, foldl_imageBatchStep] at hb
    obtain rfl := Option.some.inj hb
    intro m hm
    simp only [List.nil_append] at hm
    obtain ⟨img, -, rfl⟩ := List.mem_map.mp hm
    exact metaLookup_imageMeta ..

theorem ingestEvents_dochash {E : Ext} {res : ExtractionResult} {e : Str × Batch}
    (he : e ∈ ingestEvents E res) :
    ∀ m ∈ e.2.metas,
      metaLookup "doc_hash".toList m = some (.s (chroma_file_sha256 E res.pdf_path)) := by
  unfold ingestEvents index_all_modalities at he
  obtain ⟨nb, hnb, hf⟩ := List.mem_filterMap.mp he
  simp only [Option.getD_none] at hnb
  obtain ⟨b, hob, rfl⟩ := Option.map_eq_some'.mp hf
  rcases List.mem_cons.mp hnb with rfl | hnb'
  · exact text_batch_dochash hob
  rcases List.mem_cons.mp hnb' with rfl | hnb''
  · exact table_batch_dochash hob
  rcases List.mem_cons.mp hnb'' with rfl | hnb'''
  · exact image_batch_dochash hob
  · cases hnb'''

theorem run_pipeline_ingests (E : Ext) (res : ExtractionResult) (st : ChromaState)
    (h : is_already_indexed (file_sha256 E res.pdf_path) st = false) :
    run_pipeline E res false st =
      ⟨(ingestEvents E res).foldl (fun s e => applyUpsert s e.1 e.2) st,
        ingestEvents E res, false⟩ := by
  unfold run_pipeline
  dsimp only
  rw [h]
  rfl

theorem state1_dochash (E : Ext) (res : ExtractionResult) :
    ∀ (n : Str) (r : StoreRec),
      r ∈ ((ingestEvents E res).foldl (fun s e => applyUpsert s e.1 e.2) emptyState) n →
      metaLookup "doc_hash".toList r.meta = some (.s (chroma_file_sha256 E res.pdf_path)) := by
  intro n r hr
  rcases mem_foldl_applyUpsert hr with h | ⟨e, he, hre⟩
  · simp [emptyState] at h
  · exact ingestEvents_dochash he _ (meta_of_mem_batchRecs hre)

/-! ## Claim theorems -/

/-- C7: `is_already_indexed(doc_hash)` probes each known collection in
turn with a `doc_hash` equality filter and `limit=1`; it returns true
exactly when some collection contains a matching record (true on the first
such collection), returning false only after every collection was checked
and none matched; every probe fetches at most one record. -/
theorem gate_or_semantics (dh : Str) (st : ChromaState) :
    (is_already_indexed dh st = true ↔
      ∃ name ∈ COLLECTIONS, ∃ r ∈ st name, matchesDocHash dh r = true)
  ∧ ∀ name, (chromaGetDocHash st name dh).length ≤ 1 := by
  refine ⟨isIndexedLoop_iff st dh COLLECTIONS, ?_⟩
  intro name
  unfold chromaGetDocHash
  exact List.length_take_le 1 ((st name).filter (matchesDocHash dh))

/-- C10: for `extract_tables`, `extract_images` and `load_pdf_text`, a
`num_pages` of `None`, zero, or a negative integer processes all pages,
and a positive `N` processes exactly the first `min(N, total_pages)`
pages. -/
theorem page_cap_semantics (pages : List TextDoc) (n : Int) (total : Nat)
    (pp : Nat → List (Str × Option BBox)) :
    (load_pdf_text pages none = pages)
  ∧ (load_pdf_text pages (some 0) = pages)
  ∧ (n < 0 → load_pdf_text pages (some n) = pages)
  ∧ (0 < n → load_pdf_text pages (some n) = pages.take (min n.toNat pages.length))
  ∧ (extractLimit none total = total)
  ∧ (extractLimit (some 0) total = total)
  ∧ (n < 0 → extractLimit (some n) total = total)
  ∧ (0 < n → extractLimit (some n) total = min n.toNat total)
  ∧ (n ≤ 0 → extract_tables pp total (some n) = extract_tables pp total none)
  ∧ (0 < n → extract_tables pp total (some n) = extract_tables pp (min n.toNat total) none)
  ∧ (n ≤ 0 → extract_images pp total (some n) = extract_images pp total none)
  ∧ (0 < n → extract_images pp total (some n) = extract_images pp (min n.toNat total) none) := by
  refine ⟨rfl, by simp [load_pdf_text], ?_, ?_, rfl, by simp [extractLimit], ?_, ?_, ?_, ?_, ?_, ?_⟩
  · intro h
    simp only [load_pdf_text]
    rw [if_pos (by omega)]
  · intro h
    simp only [load_pdf_text]
    rw [if_neg (by omega)]
  · intro h
    simp only [extractLimit]
    rw [if_pos (by omega)]
  · intro h
    simp only [extractLimit]
    rw [if_neg (by omega)]
  · intro h
    unfold extract_tables
    rw [show extractLimit (some n) total = extractLimit none total by
      simp [extractLimit]; omega]
  · intro h
    unfold extract_tables
    rw [show extractLimit (some n) total = extractLimit none (min n.toNat total) by
      simp [extractLimit]; omega]
  · intro h
    unfold extract_images
    rw [show extractLimit (some n) total = extractLimit none total by
      simp [extractLimit]; omega]
  · intro h
    unfold extract_images
    rw [show extractLimit (some n) total = extractLimit none (min n.toNat total) by
      simp [extractLimit]; omega]

/-- Witness for `page_cap_semantics` at concrete inputs: a negative page
cap keeps both pages; a positive cap of 2 over 5 pages equals the run over
the first `min(2, 5)` pages. -/
theorem page_cap_semantics_witness :
    load_pdf_text [⟨"a".toList⟩, ⟨"b".toList⟩] (some (-1)) = [⟨"a".toList⟩, ⟨"b".toList⟩]
  ∧ extract_tables (fun _ => [("t".toList, none)]) 5 (some 2) =
      extract_tables (fun _ => [("t".toList, none)]) (min ((2 : Int)).toNat 5) none :=
  ⟨(page_cap_semantics [⟨"a".toList⟩, ⟨"b".toList⟩] (-1) 5 (fun _ => [("t".toList, none)])).2.2.1
      (by decide),
   (page_cap_semantics [⟨"a".toList⟩, ⟨"b".toList⟩] 2 5
      (fun _ => [("t".toList, none)])).2.2.2.2.2.2.2.2.2.1 (by decide)⟩

/-- C6 counterexample: with `max_chars_per_chunk = 0` (falsy in Python) no
truncation happens at all, so the rendered text of the hit `"abc"` has
length 3, exceeding `0 + len(" …") = 2`: the bound does not hold for
*every* configured value. -/
theorem truncation_bound_cx :
    ¬ (((renderChunkText "abc".toList 0).length : Int) ≤ 0 + (contMarker.length : Int)) := by
  decide

/-- C6 (amended: for every *positive* max-chars-per-chunk value): the chunk
text rendered by `format_context` is at most `max_chars_per_chunk` plus the
length of the continuation marker. -/
theorem truncation_bound (text : Str) (m : Int) (hm : 0 < m) :
    ((renderChunkText text m).length : Int) ≤ m + (contMarker.length : Int) := by
  have hcm : (contMarker.length : Int) = 2 := by decide
  unfold renderChunkText
  by_cases h : m ≠ 0 ∧ m < ((pyStrip text).length : Int)
  · rw [if_pos h]
    unfold pySliceTo
    rw [if_pos (le_of_lt hm)]
    simp only [List.length_append, List.length_take]
    rw [hcm]
    push_cast
    omega
  · rw [if_neg h]
    push_neg at h
    have hlen := h (by omega)
    rw [hcm]
    omega

/-- Witness for `truncation_bound`: a 6-character text cut at 3. -/
theorem truncation_bound_witness :
    ((renderChunkText "abcdef".toList 3).length : Int) ≤ 3 + (contMarker.length : Int) :=
  truncation_bound "abcdef".toList 3 (by decide)

/-- C4 counterexample: when the external call fails, `answer()` does not
surface a hard failure — it returns the ordinary triple with the answer
string `"None"` (the stringified `None` from `GeminiClient.generate`'s
catch-all), unlike the spec-modelled `spec_answer`, which propagates the
error. -/
theorem answer_failure_cx :
    answer [] (Except.error "boom".toList) 6 1200 = ("None".toList, [], [])
  ∧ spec_answer [] (Except.error "boom".toList) 6 1200 = Except.error "boom".toList := by
  constructor
  · simp [answer, retrieve_context, fuse, format_context, generate, answerTextOf]
  · rfl

/-- C4 (amended): when the external answering call fails,
`GeminiClient.generate` catches the exception and returns null after the
single attempt (no retry), and `answer()` returns normally with the
stringified null `"None"` as answer text, alongside the retrieval hits and
formatted context. -/
theorem answer_failure_amended (results : List (Str × List SearchRes)) (e : Str)
    (top_n : Nat) (maxc : Int) :
    generate (Except.error e) = none
  ∧ answer results (Except.error e) top_n maxc =
      ("None".toList, retrieve_context results top_n,
        format_context (retrieve_context results top_n) maxc) :=
  ⟨rfl, rfl⟩

/-- C9: a table whose preview text is empty or whitespace-only is embedded
by `index_table_artifacts` as the fallback `"Table on page <N>"` with `N`
the table's page number; and `extract_tables` stamps every artifact with a
1-based page number. -/
theorem table_preview_fallback
    (E : Ext) (tables : List TableArtifact) (pdf_path : Str) (dh : Option Str)
    (tag : Option MVal) (b : Batch) (i : Nat) (t : TableArtifact)
    (hb : index_table_artifacts E tables pdf_path dh tag = some b)
    (ht : tables[i]? = some t)
    (hws : ∀ c ∈ t.preview_text, isPySpace c = true) :
    b.texts[i]? = some ("Table on page ".toList ++ natStr t.page)
  ∧ ∀ (pp : Nat → List (Str × Option BBox)) (total : Nat) (np : Option Int)
      (x : Nat × Str × Option BBox), x ∈ extract_tables pp total np → 1 ≤ x.1 := by
  constructor
  · unfold index_table_artifacts at hb
    by_cases hd : tables = []
    · subst hd
      simp at ht
    · rw [if_neg hd] at hb
      simp only [foldl_tableBatchStep] at hb
      obtain rfl := Option.some.inj hb
      simp only [List.nil_append, List.getElem?_map, List.getElem?_enum, ht, Option.map_some']
      unfold tableText
      rw [pyStrip_eq_nil_of_all hws, if_pos rfl]
  · intro pp total np x hx
    unfold extract_tables at hx
    obtain ⟨pi, -, hx2⟩ := List.mem_flatMap.mp hx
    obtain ⟨-, -, rfl⟩ := List.mem_map.mp hx2
    omega

/-- Witness for `table_preview_fallback`: the whitespace-preview `table0`
on page 3 is embedded as `"Table on page 3"`. -/
theorem table_preview_fallback_witness :
    tbatch0.texts[0]? = some ("Table on page ".toList ++ natStr 3) :=
  (table_preview_fallback ext0 [table0] "docs/report.pdf".toList (some "d".toList) none
    tbatch0 0 table0 (by decide) (by decide) (by decide)).1

/-- C8 counterexample: for an image with an empty caption and OCR text
`"x"`, the embedded text is `"OCR: x"` — not the claim's
`caption + "\nOCR: " + ocr_text`, which would be `"\nOCR: x"`. -/
theorem image_text_cx :
    imageText [] (some "x".toList) 4 "docs/report.pdf".toList ≠
      ([] : Str) ++ "\nOCR: ".toList ++ "x".toList := by
  decide

/-- C8 (amended): the embedded image text is the stripped caption, then
`"\nOCR: "`, then the stripped OCR text when both are non-blank; it is
`"OCR: "` plus the stripped OCR text when the caption is blank and the OCR
text non-blank; and it is the page/filename fallback
`"Image on page <N> of <file name>"` when the caption is blank and the OCR
text is absent (`None` or empty). -/
theorem image_text_amended (caption o : Str) (page : Nat) (pdf_path : Str) :
    (pyStrip caption ≠ [] → pyStrip o ≠ [] →
      imageText caption (some o) page pdf_path =
        pyStrip caption ++ "\nOCR: ".toList ++ pyStrip o)
  ∧ (pyStrip caption = [] → pyStrip o ≠ [] →
      imageText caption (some o) page pdf_path = "OCR: ".toList ++ pyStrip o)
  ∧ (pyStrip caption = [] →
      imageText caption none page pdf_path =
        "Image on page ".toList ++ natStr page ++ " of ".toList ++ pathName pdf_path)
  ∧ (pyStrip caption = [] →
      imageText caption (some []) page pdf_path =
        "Image on page ".toList ++ natStr page ++ " of ".toList ++ pathName pdf_path) := by
  have hone : ∀ s : Str, pyStrip s ≠ [] → s ≠ [] := by
    intro s h hs
    exact h (by rw [hs]; rfl)
  refine ⟨?_, ?_, ?_, ?_⟩
  · intro hc ho
    unfold imageText
    dsimp only
    rw [if_pos (hone o ho), if_pos hc]
    rw [pyStrip_append_of "\nOCR: ".toList (pyStrip_noLead caption) hc (pyStrip_noTrail o) ho]
    rw [if_neg (show ¬(pyStrip caption ++ "\nOCR: ".toList ++ pyStrip o = []) by simp [hc])]
  · intro hc ho
    unfold imageText
    dsimp only
    rw [if_pos (hone o ho), hc]
    rw [if_neg (show ¬(([] : Str) ≠ []) by simp)]
    rw [List.nil_append]
    have h1 : pyStrip ("OCR: ".toList ++ ([] : Str) ++ pyStrip o) =
        "OCR: ".toList ++ ([] : Str) ++ pyStrip o :=
      pyStrip_append_of ([] : Str) (by decide) (by decide) (pyStrip_noTrail o) ho
    simp only [List.append_nil] at h1
    rw [h1]
    rw [if_neg (show ¬("OCR: ".toList ++ pyStrip o = []) by simp)]
  · intro hc
    unfold imageText
    dsimp only
    rw [hc, if_pos rfl]
  · intro hc
    unfold imageText
    dsimp only
    rw [if_neg (show ¬(([] : Str) ≠ []) by simp), hc, if_pos rfl]

/-- Witness for `image_text_amended`: caption `" cap "` and OCR `" ocr "`
combine into `"cap\nOCR: ocr"`. -/
theorem image_text_amended_witness :
    imageText " cap ".toList (some " ocr ".toList) 2 "a.pdf".toList =
      pyStrip " cap ".toList ++ "\nOCR: ".toList ++ pyStrip " ocr ".toList :=
  (image_text_amended " cap ".toList " ocr ".toList 2 "a.pdf".toList).1 (by decide) (by decide)

/-- C2 counterexample: on a split producing one chunk on page 1 and one on
page 2, `index_text_docs` assigns the second chunk the id
`d:text:p0002:c0001` (document-wide index), not the id
`d:text:p0002:c0000` demanded by per-page chunk numbering. -/
theorem text_chunk_ids_cx :
    (index_text_docs ext0 [⟨"alpha beta".toList⟩] "docs/report.pdf".toList
        (some "d".toList) none).map Batch.ids ≠
      some (spec_text_chunk_ids "d".toList twoPageChunks) := by
  decide

/-- C2 (amended): every id generated by `index_text_docs` has the form
`{dh}:text:p{page:04d}:c{i:04d}` where `page` is the chunk's 1-based page
and `i` is the chunk's index in the *document-wide* chunk sequence
produced by the splitter (numbering does not restart per page). -/
theorem text_chunk_ids_amended (E : Ext) (docs : List TextDoc) (pdf_path : Str)
    (dh : Str) (tag : Option MVal) (b : Batch)
    (hb : index_text_docs E docs pdf_path (some dh) tag = some b) :
    b.ids = (E.split docs).enum.map (fun ic => textChunkId dh ic.2 ic.1)
  ∧ ∀ i c, (E.split docs)[i]? = some c →
      b.ids[i]? = some (dh ++ ":text:p".toList ++ padNat 4 ((c.page.getD 0) + 1) ++
        ":c".toList ++ padNat 4 i) := by
  have hids : b.ids = (E.split docs).enum.map (fun ic => textChunkId dh ic.2 ic.1) := by
    unfold index_text_docs at hb
    by_cases hd : docs = []
    · simp [hd] at hb
    · rw [if_neg hd] at hb
      simp only [Option.getD_some, foldl_textBatchStep] at hb
      obtain rfl := Option.some.inj hb
      simp
  refine ⟨hids, ?_⟩
  intro i c hc
  rw [hids]
  simp only [List.getElem?_map, List.getElem?_enum, hc, Option.map_some']
  rfl

/-- Witness for `text_chunk_ids_amended`: the two-page split of `res0`. -/
theorem text_chunk_ids_amended_witness :
    textBatch0.ids =
      (ext0.split res0.text).enum.map (fun ic => textChunkId "d".toList ic.2 ic.1) :=
  (text_chunk_ids_amended ext0 res0.text "docs/report.pdf".toList "d".toList none
    textBatch0 (by decide)).1

/-- C5: every metadata value produced by the three indexers is a scalar
(string, number, boolean or null); a non-scalar value is stringified
locally by `_clean_meta` (a total function — the condition is never
surfaced as an error). -/
theorem metadata_scalar_only :
    (∀ (m : Meta) (k : Str) (v : MVal), (k, v) ∈ clean_meta m → v.isScalar = true)
  ∧ (∀ (m : Meta) (k : Str) (v : MVal), (k, v) ∈ m → v.isScalar = false →
      (k, MVal.s v.pyStr) ∈ clean_meta m)
  ∧ (∀ (E : Ext) (docs : List TextDoc) (pdf_path : Str) (dh : Option Str)
      (tag : Option MVal) (b : Batch) (m : Meta) (k : Str) (v : MVal),
      index_text_docs E docs pdf_path dh tag = some b →
      m ∈ b.metas → (k, v) ∈ m → v.isScalar = true)
  ∧ (∀ (E : Ext) (tables : List TableArtifact) (pdf_path : Str) (dh : Option Str)
      (tag : Option MVal) (b : Batch) (m : Meta) (k : Str) (v : MVal),
      index_table_artifacts E tables pdf_path dh tag = some b →
      m ∈ b.metas → (k, v) ∈ m → v.isScalar = true)
  ∧ (∀ (E : Ext) (images : List ImageArtifact) (pdf_path : Str) (dh : Option Str)
      (tag : Option MVal) (b : Batch) (m : Meta) (k : Str) (v : MVal),
      index_image_artifacts E images pdf_path dh tag = some b →
      m ∈ b.metas → (k, v) ∈ m → v.isScalar = true) := by
  refine ⟨fun m k v h => clean_meta_scalar h, ?_, ?_, ?_, ?_⟩
  · intro m k v hm hv
    refine List.mem_map.mpr ⟨(k, v), hm, ?_⟩
    simp [hv]
  · intro E docs pdf_path dh tag b m k v hb hm hkv
    unfold index_text_docs at hb
    by_cases hd : docs = []
    · simp [hd] at hb
    · rw [if_neg hd] at hb
      simp only [foldl_textBatchStep] at hb
      obtain rfl := Option.some.inj hb
      simp only [List.nil_append] at hm
      obtain ⟨ic, -, rfl⟩ := List.mem_map.mp hm
      unfold textChunkMeta at hkv
      exact clean_meta_scalar hkv
  · intro E tables pdf_path dh tag b m k v hb hm hkv
    unfold index_table_artifacts at hb
    by_cases hd : tables = []
    · simp [hd] at hb
    · rw [if_neg hd] at hb
      simp only [foldl_tableBatchStep] at hb
      obtain rfl := Option.some.inj hb
      simp only [List.nil_append] at hm
      obtain ⟨it, -, rfl⟩ := List.mem_map.mp hm
      unfold tableMeta at hkv
      exact clean_meta_scalar hkv
  · intro E images pdf_path dh tag b m k v hb hm hkv
    unfold index_image_artifacts at hb
    by_cases hd : images = []
    · simp [hd] at hb
    · rw [if_neg hd] at hb
      simp only [foldl_imageBatchStep] at hb
      obtain rfl := Option.some.inj hb
      simp only [List.nil_append] at hm
      obtain ⟨img, -, rfl⟩ := List.mem_map.mp hm
      unfold imageMeta at hkv
      exact clean_meta_scalar hkv

/-- Witness for `metadata_scalar_only`: the `doc_hash` entry of the
metadata produced for `table0` is the scalar string `"d"`. -/
theorem metadata_scalar_only_witness :
    (MVal.s "d".toList).isScalar = true :=
  metadata_scalar_only.2.2.2.1 ext0 [table0] "docs/report.pdf".toList (some "d".toList) none
    tbatch0 (tableMeta "d".toList (resolveTag none "docs/report.pdf".toList) table0)
    "doc_hash".toList (.s "d".toList) (by decide) (by decide) (by decide)

/-- C3: `retrieve_context` returns at most `top_n` hits, sorted by
non-decreasing distance score; ties keep the order of the concatenated
per-collection results (stable sort: for every score value, the returned
hits with that score are a prefix of the fused hits with that score); and
every returned hit's score is at most the score of every excluded hit. -/
theorem retrieve_context_fusion (results : List (Str × List SearchRes)) (top_n : Nat) :
    (retrieve_context results top_n).length ≤ top_n
  ∧ (retrieve_context results top_n).Pairwise (fun a b => a.score ≤ b.score)
  ∧ (∀ s : ℚ, (retrieve_context results top_n).filter (fun h => h.score = s) <+:
      (fuse results).filter (fun h => h.score = s))
  ∧ ∃ excluded : List Hit,
      (retrieve_context results top_n ++ excluded).Perm (fuse results)
      ∧ ∀ a ∈ retrieve_context results top_n, ∀ b ∈ excluded, a.score ≤ b.score := by
  have htrans : ∀ a b c : Hit, hitLE a b = true → hitLE b c = true → hitLE a c = true := by
    intro a b c hab hbc
    simp only [hitLE, decide_eq_true_eq] at *
    exact le_trans hab hbc
  have htotal : ∀ a b : Hit, (hitLE a b || hitLE b a) = true := by
    intro a b
    simp only [hitLE, Bool.or_eq_true, decide_eq_true_eq]
    exact le_total _ _
  have hsorted := List.sorted_mergeSort htrans htotal (fuse results)
  refine ⟨?_, ?_, ?_, ?_⟩
  · simp [retrieve_context]
  · have hp := hsorted.sublist (List.take_sublist top_n _)
    exact hp.imp (fun h => by simpa [hitLE] using h)
  · intro s
    have hstab :
        ((fuse results).mergeSort hitLE).filter (fun h => h.score = s) =
          (fuse results).filter (fun h => h.score = s) := by
      have hpair : ((fuse results).filter (fun h => h.score = s)).Pairwise
          (fun a b => hitLE a b = true) := by
        apply List.pairwise_of_forall_mem_list
        intro a ha b hb
        have hpa := (List.mem_filter.mp ha).2
        have hpb := (List.mem_filter.mp hb).2
        simp only [decide_eq_true_eq] at hpa hpb
        simp [hitLE, hpa, hpb]
      have hsub : List.Sublist ((fuse results).filter (fun h => h.score = s))
          ((fuse results).mergeSort hitLE) :=
        List.sublist_mergeSort htrans htotal hpair (List.filter_sublist _)
      have hself : ((fuse results).filter (fun h => h.score = s)).filter
          (fun h => h.score = s) = (fuse results).filter (fun h => h.score = s) := by
        rw [List.filter_eq_self]
        intro a ha
        exact (List.mem_filter.mp ha).2
      have hsub2 : List.Sublist ((fuse results).filter (fun h => h.score = s))
          (((fuse results).mergeSort hitLE).filter (fun h => h.score = s)) := by
        have := hsub.filter (fun h => decide (h.score = s))
        rwa [hself] at this
      have hperm : List.Perm (((fuse results).mergeSort hitLE).filter (fun h => h.score = s))
          ((fuse results).filter (fun h => h.score = s)) :=
        (List.mergeSort_perm (fuse results) hitLE).filter _
      exact (hsub2.eq_of_length hperm.length_eq.symm).symm
    refine ⟨(((fuse results).mergeSort hitLE).drop top_n).filter (fun h => h.score = s), ?_⟩
    rw [retrieve_context, ← List.filter_append, List.take_append_drop, hstab]
  · refine ⟨((fuse results).mergeSort hitLE).drop top_n, ?_, ?_⟩
    · rw [retrieve_context, List.take_append_drop]
      exact List.mergeSort_perm (fuse results) hitLE
    · intro a ha b hb
      have hpw : (((fuse results).mergeSort hitLE).take top_n ++
          ((fuse results).mergeSort hitLE).drop top_n).Pairwise
          (fun a b => hitLE a b = true) := by
        rw [List.take_append_drop]
        exact hsorted
      have := (List.pairwise_append.mp hpw).2.2 a ha b hb
      simpa [hitLE] using this

/-- C1 (code-bug evidence): the pipeline's idempotency round-trip is
broken.  `run_pipeline.main` probes the gate with the full 64-hex-char
`helpers.file_sha256` digest, but — because it passes no `doc_hash` to
`index_all_modalities` — every stored record carries the 16-hex-char
truncated `_file_sha256` in its `doc_hash` metadata.  Hence after a
successful first ingestion, re-running on the same bytes with
`force=false` finds `is_already_indexed(...) = false` and issues fresh
upsert calls, contradicting the claimed round-trip. -/
theorem reingest_gate_misses (E : Ext) (res : ExtractionResult)
    (h64 : (E.sha256hex (E.fileBytes res.pdf_path)).length = 64)
    (htext : res.text ≠ []) :
    is_already_indexed (file_sha256 E res.pdf_path)
        (run_pipeline E res false emptyState).state = false
  ∧ (run_pipeline E res false (run_pipeline E res false emptyState).state).skipped = false
  ∧ (run_pipeline E res false
        (run_pipeline E res false emptyState).state).upserts ≠ [] := by
  have hfirstgate : is_already_indexed (file_sha256 E res.pdf_path) emptyState = false := by
    rfl
  have hrun1 := run_pipeline_ingests E res emptyState hfirstgate
  have hst1eq : (run_pipeline E res false emptyState).state =
      (ingestEvents E res).foldl (fun s e => applyUpsert s e.1 e.2) emptyState := by
    rw [hrun1]
  have hne : chroma_file_sha256 E res.pdf_path ≠ file_sha256 E res.pdf_path := by
    intro hcontra
    have hlen := congrArg List.length hcontra
    simp only [chroma_file_sha256, file_sha256, List.length_take, h64] at hlen
    omega
  have hgate : is_already_indexed (file_sha256 E res.pdf_path)
      (run_pipeline E res false emptyState).state = false := by
    by_contra hby
    rw [Bool.not_eq_false] at hby
    obtain ⟨name, -, r, hr, hmatch⟩ :=
      (isIndexedLoop_iff (run_pipeline E res false emptyState).state
        (file_sha256 E res.pdf_path) COLLECTIONS).mp hby
    rw [hst1eq] at hr
    have hdoc := state1_dochash E res name r hr
    simp only [matchesDocHash, decide_eq_true_eq] at hmatch
    rw [hdoc] at hmatch
    simp only [Option.some.injEq, MVal.s.injEq] at hmatch
    exact hne hmatch
  have heventsne : ingestEvents E res ≠ [] := by
    simp [ingestEvents, index_all_modalities, List.filterMap_cons, index_text_docs, htext]
  have hrun2 := run_pipeline_ingests E res (run_pipeline E res false emptyState).state hgate
  refine ⟨hgate, ?_, ?_⟩
  · rw [hrun2]
  · rw [hrun2]
    exact heventsne

/-- Witness for `reingest_gate_misses` at the concrete collaborators
`ext0` / `res0`: the digest is 64 chars and the text list non-empty. -/
theorem reingest_gate_misses_witness :
    is_already_indexed (file_sha256 ext0 res0.pdf_path)
        (run_pipeline ext0 res0 false emptyState).state = false
  ∧ (run_pipeline ext0 res0 false
        (run_pipeline ext0 res0 false emptyState).state).skipped = false
  ∧ (run_pipeline ext0 res0 false
        (run_pipeline ext0 res0 false emptyState).state).upserts ≠ [] :=
  reingest_gate_misses ext0 res0 (by decide) (by decide)

end RagMM
